import Mathlib

/-!
Verification of the VimGolf solving harness (`vimgolf_solver.py`,
`src/pynvim_agents/vim_agent.py`, `src/pynvim_agents/raw_editor.py`).

The Python code is shallowly embedded: pure string processing functions are
translated into executable Lean functions over `String`/`List Char`; the
external nvim engine and the OpenAI API are modelled as explicit oracle
parameters; Python exceptions become `Except`/`Option` values.  Python's
`str.strip`/`\s` whitespace is modelled over its ASCII subset.
-/

namespace VimGolfHarness

/-! ### Python string primitives -/

/-- The ASCII whitespace characters recognised by Python `str.strip()` and the
regex class `\s`. -/
def pyIsSpace (c : Char) : Bool :=
  c = ' ' || c = '\t' || c = '\n' || c = '\r' || c = '\x0b' || c = '\x0c'

/-- Python `s.strip()`: remove leading and trailing whitespace. -/
def pyStrip (s : String) : String :=
  String.mk (((s.data.dropWhile pyIsSpace).reverse.dropWhile pyIsSpace).reverse)

/-- Helper for `pySplitLines`: accumulate the current field (reversed) while
scanning for the separator. -/
def splitLinesAux : List Char → List Char → List String
  | acc, [] => [String.mk acc.reverse]
  | acc, x :: rest =>
    if x == '\n' then String.mk acc.reverse :: splitLinesAux [] rest
    else splitLinesAux (x :: acc) rest

/-- Python `s.split('\n')`: split on every newline, keeping empty fields. -/
def pySplitLines (s : String) : List String := splitLinesAux [] s.data

/-- Python `s.lower()` over ASCII. -/
def pyLower (s : String) : String := String.mk (s.data.map Char.toLower)

/-- The apostrophe character. -/
def apoChar : Char := Char.ofNat 39

/-- The backtick character. -/
def btChar : Char := Char.ofNat 96

/-! ### Buffer comparison in `_run_nvim_evaluation` (vimgolf_solver.py:344-361)

`_run_nvim_evaluation` reads the final buffer from the engine and compares it
with the expected lines:
  - `result_lines_clean`/`expected_lines_clean` keep only lines whose `strip()`
    is truthy;
  - trailing lines equal to `''` are popped from both lists;
  - the score is 1 iff either the popped lists are equal (`exact_match`) or
    the cleaned lists are equal (`content_match`).
The engine execution itself is external; the comparison is embedded as a
function of the engine-produced `result_lines`. -/

/-- Drop the maximal run of trailing elements satisfying `p`
(`while xs and p(xs[-1]): xs.pop()`). -/
def dropTrailingWhile (p : String → Bool) (l : List String) : List String :=
  (l.reverse.dropWhile p).reverse

/-- The comparison performed at the end of `_run_nvim_evaluation`. -/
def evalCompare (resultLines expectedLines : List String) : Nat :=
  let resultClean := resultLines.filter (fun line => pyStrip line != "")
  let expectedClean := expectedLines.filter (fun line => pyStrip line != "")
  let resultPopped := dropTrailingWhile (fun line => line == "") resultLines
  let expectedPopped := dropTrailingWhile (fun line => line == "") expectedLines
  if resultPopped == expectedPopped || resultClean == expectedClean then 1 else 0

/-! Spec-side comparison predicates (for the refinement claim about scoring).
These follow the specification's words: a line is *wholly empty* when it
contains no non-whitespace character; exact match compares after stripping
only wholly-empty trailing lines, content match after discarding every
wholly-empty line. -/

/-- Modelled from the spec: a wholly-empty line (no non-whitespace content). -/
def whollyEmpty (line : String) : Bool := pyStrip line == ""

/-- Modelled from the spec: exact match after stripping only wholly-empty
trailing lines from both sides. -/
def specExactMatch (r e : List String) : Prop :=
  dropTrailingWhile whollyEmpty r = dropTrailingWhile whollyEmpty e

/-- Modelled from the spec: content match after discarding every wholly-empty
line from both sides. -/
def specContentMatch (r e : List String) : Prop :=
  r.filter (fun line => !whollyEmpty line) = e.filter (fun line => !whollyEmpty line)

/-! ### `count_keystrokes` (vimgolf_solver.py:230-286)

The Python function applies 13 regex patterns in order, each with
`re.IGNORECASE`; for each pattern it counts the non-overlapping matches
(`re.findall`) and removes them (`re.sub`) before moving to the next pattern;
finally every remaining character counts as one keystroke.  Each pattern is an
ordered alternation of token shapes; Python's regex engine tries alternatives
left to right at each position.  The patterns are embedded as alternation
data (`Atom` lists) interpreted by `matchAtoms`. -/

/-- One regex atom used by the special-key patterns: a literal character
(matched case-insensitively, per `re.IGNORECASE`), the class `[a-zA-Z0-9]`,
the class `[a-zA-Z]`, or `[0-9]+`. -/
inductive Atom where
  | lit (c : Char)
  | alnum
  | alpha
  | digits
deriving DecidableEq

/-- Case-insensitive match of a pattern character against an input character
(`re.IGNORECASE` over ASCII). -/
def charMatchCI (p x : Char) : Bool :=
  p == x || (p.isAlpha && x.isAlpha && p.toLower == x.toLower)

/-- Match a sequence of atoms at the head of the input; returns the remaining
input on success. -/
def matchAtoms : List Atom → List Char → Option (List Char)
  | [], cs => some cs
  | Atom.lit p :: as, x :: xs => if charMatchCI p x then matchAtoms as xs else none
  | Atom.alnum :: as, x :: xs => if x.isAlphanum then matchAtoms as xs else none
  | Atom.alpha :: as, x :: xs => if x.isAlpha then matchAtoms as xs else none
  | Atom.digits :: as, cs =>
      if (cs.takeWhile Char.isDigit).isEmpty then none
      else matchAtoms as (cs.dropWhile Char.isDigit)
  | _ :: _, [] => none

/-- Literal atoms for a fixed token string. -/
def litAtoms (s : String) : List Atom := s.data.map Atom.lit

/-- A pattern is an ordered list of alternatives; the first alternative that
matches at a position wins (Python regex alternation). -/
def matchPattern (alts : List (List Atom)) (cs : List Char) : Option (List Char) :=
  alts.findSome? (fun alt => matchAtoms alt cs)

/-- One `findall`+`sub` pass of a pattern over the input: scan left to right,
counting and removing each match (fuel-indexed; `fuel = cs.length` always
suffices because every pattern alternative consumes at least one character). -/
def runPattern (alts : List (List Atom)) : Nat → List Char → Nat × List Char
  | 0, cs => (0, cs)
  | _ + 1, [] => (0, [])
  | fuel + 1, c :: rest =>
    match matchPattern alts (c :: rest) with
    | some remaining =>
      let result := runPattern alts fuel remaining
      (result.1 + 1, result.2)
    | none =>
      let result := runPattern alts fuel rest
      (result.1, c :: result.2)

/-- Pattern 1: `<CR>|<Enter>|<Return>`. -/
def crPattern : List (List Atom) := [litAtoms "<CR>", litAtoms "<Enter>", litAtoms "<Return>"]

/-- Pattern 2: `<Esc>|<Escape>`. -/
def escPattern : List (List Atom) := [litAtoms "<Esc>", litAtoms "<Escape>"]

/-- Pattern 3: `<Tab>|<S-Tab>`. -/
def tabPattern : List (List Atom) := [litAtoms "<Tab>", litAtoms "<S-Tab>"]

/-- Pattern 4: `<BS>|<Backspace>`. -/
def bsPattern : List (List Atom) := [litAtoms "<BS>", litAtoms "<Backspace>"]

/-- Pattern 5: `<Del>|<Delete>`. -/
def delPattern : List (List Atom) := [litAtoms "<Del>", litAtoms "<Delete>"]

/-- Pattern 6: `<Up>|<Down>|<Left>|<Right>`. -/
def arrowPattern : List (List Atom) :=
  [litAtoms "<Up>", litAtoms "<Down>", litAtoms "<Left>", litAtoms "<Right>"]

/-- Pattern 7: `<C-[a-zA-Z0-9]>`. -/
def ctrlPattern : List (List Atom) := [litAtoms "<C-" ++ [Atom.alnum] ++ litAtoms ">"]

/-- Pattern 8: `<S-[a-zA-Z]>`. -/
def shiftPattern : List (List Atom) := [litAtoms "<S-" ++ [Atom.alpha] ++ litAtoms ">"]

/-- Pattern 9: `<A-[a-zA-Z]>`. -/
def altPattern : List (List Atom) := [litAtoms "<A-" ++ [Atom.alpha] ++ litAtoms ">"]

/-- Pattern 10: `<F[0-9]+>`. -/
def fnPattern : List (List Atom) := [litAtoms "<F" ++ [Atom.digits] ++ litAtoms ">"]

/-- Pattern 11: `<Home>|<End>`. -/
def homePattern : List (List Atom) := [litAtoms "<Home>", litAtoms "<End>"]

/-- Pattern 12: `<PageUp>|<PageDown>`. -/
def pagePattern : List (List Atom) := [litAtoms "<PageUp>", litAtoms "<PageDown>"]

/-- Pattern 13: `<Insert>`. -/
def insPattern : List (List Atom) := [litAtoms "<Insert>"]

/-- The `special_key_patterns` list, in source order. -/
def specialKeyPatterns : List (List (List Atom)) :=
  [crPattern, escPattern, tabPattern, bsPattern, delPattern, arrowPattern,
   ctrlPattern, shiftPattern, altPattern, fnPattern, homePattern, pagePattern,
   insPattern]

/-- The pattern loop of `count_keystrokes`: apply each pattern in order,
adding its match count and keeping the remaining characters. -/
def runPatterns : List (List (List Atom)) → Nat → List Char → Nat × List Char
  | [], acc, cs => (acc, cs)
  | pat :: pats, acc, cs =>
    let result := runPattern pat cs.length cs
    runPatterns pats (acc + result.1) result.2

/-- `count_keystrokes`: apply each special-key pattern in order, counting and
removing its matches, then count every remaining character. -/
def countKeystrokes (s : String) : Nat :=
  if s == "" then 0
  else
    let final := runPatterns specialKeyPatterns 0 s.data
    final.1 + final.2.length

/-- A recognised special-key token: some alternative of some pattern of the
fixed set matches it exactly (consuming the whole string). -/
def recognizedToken (s : String) : Bool :=
  specialKeyPatterns.any (fun pat => pat.any (fun alt => matchAtoms alt s.data == some []))

/-- An interior atom of a special-key alternative: it can match neither `<`
nor `>`. -/
def innerAtom : Atom → Bool
  | Atom.lit c => !(c == '<') && !(c == '>')
  | _ => true

/-- Structural well-formedness of the tail of a special-key alternative:
interior atoms followed by a final literal `>`. -/
def wfTail : List Atom → Bool
  | [] => false
  | [Atom.lit c] => c == '>'
  | a :: rest => innerAtom a && wfTail rest

/-- Structural well-formedness of a special-key alternative: a literal `<`,
interior atoms, and a final literal `>`; every alternative of every pattern
of `specialKeyPatterns` has this shape. -/
def wfAlt : List Atom → Bool
  | Atom.lit c :: rest => c == '<' && wfTail rest
  | _ => false

/-! ### `extract_solution_from_response` (vimgolf_solver.py:156-228)

Four ordered extraction rules over the raw LLM response text, each guarded by
the command-likelihood predicate `_looks_like_vim_command`; the searches embed
the concrete regexes used by the source, including Python's backtracking
behaviour (leftmost start position, greedy quantifiers, leftmost alternative).
-/

/-- The descriptive lead-in phrases rejected by `_looks_like_vim_command`
(compared against the lowercased text). -/
def descriptivePhrases : List String :=
  ["the vim keystrokes are:", "i would use", "here" ++ String.singleton apoChar ++ "s",
   "this will", "explanation:", "keystrokes:", "step", "first", "then", "next"]

/-- Regex `<[A-Z][a-z]*>` searched anywhere in the text: a bracketed span of
one uppercase letter followed by lowercase letters. -/
def hasSpecialKeyShape : List Char → Bool
  | [] => false
  | c :: rest =>
    (c == '<' &&
      (match rest with
       | x :: xs => x.isUpper && ((xs.dropWhile Char.isLower).head? == some '>')
       | [] => false)) ||
    hasSpecialKeyShape rest

/-- `_looks_like_vim_command`: rejects empty text and descriptive lead-ins,
then accepts text containing one of the vim command shapes (`^:`,
`^[0-9]*[a-zA-Z]`, `<[A-Z][a-z]*>`, `[ijaoIO]`, `[/?]`, quote or backtick). -/
def looksLikeVimCommand (s : String) : Bool :=
  if s == "" then false
  else if descriptivePhrases.any (fun p => p.data.isPrefixOf (pyLower s).data) then false
  else
    (s.data.head? == some ':') ||
    (match (s.data.dropWhile Char.isDigit).head? with
     | some c => c.isAlpha
     | none => false) ||
    hasSpecialKeyShape s.data ||
    s.data.any (fun c => c == 'i' || c == 'j' || c == 'a' || c == 'o' || c == 'I' || c == 'O') ||
    s.data.any (fun c => c == '/' || c == '?') ||
    s.data.any (fun c => c == apoChar || c == '"' || c == btChar)

/-- `_clean_backticks`: strip, and if the text both starts and ends with a
backtick, drop the first and last character and strip again. -/
def cleanBackticks (s : String) : String :=
  let t := pyStrip s
  if t.data.head? == some btChar && t.data.getLast? == some btChar then
    pyStrip (String.mk t.data.dropLast.tail)
  else t

/-- Tail of the rule-1 regex `Solution:\s*([^\n]+)` after the literal: greedy
`\s*` with minimal backtracking so that `[^\n]+` can match at least one
character.  If a non-whitespace character follows the whitespace run, the
group is the run of non-newline characters from it; otherwise the group is
the last non-newline whitespace character, if any. -/
def solTail (rest : List Char) : Option (List Char) :=
  let rem := rest.dropWhile pyIsSpace
  if rem.isEmpty then
    match rest.reverse.dropWhile (fun c => c == '\n') with
    | [] => none
    | c :: _ => some [c]
  else some (rem.takeWhile (fun c => !(c == '\n')))

/-- Scan for the first position where `Solution:\s*([^\n]+)` matches
(`re.search` tries every start position left to right); returns the raw
capture group. -/
def findSolutionAux : List Char → Option (List Char)
  | [] => none
  | c :: rest =>
    if ("Solution:".data).isPrefixOf (c :: rest) then
      match solTail (List.drop 9 (c :: rest)) with
      | some g => some g
      | none => findSolutionAux rest
    else findSolutionAux rest

/-- Rule-1 search over the response text. -/
def findSolution (text : String) : Option String :=
  (findSolutionAux text.data).map String.mk

/-- Body part of the rule-2 regex: after the opening fence and tag, a literal
newline, then the greedy group `([^`]+)` followed by a newline and a closing
triple fence.  Because the group cannot contain backticks, it must end right
before the first backtick, whose preceding character must be the newline. -/
def cbBody (r : List Char) : Option (List Char) :=
  match r with
  | c :: rest =>
    if c == '\n' then
      let body := rest.takeWhile (fun x => !(x == btChar))
      let after := rest.dropWhile (fun x => !(x == btChar))
      if decide (2 ≤ body.length) && body.getLast? == some '\n' &&
         ([btChar, btChar, btChar]).isPrefixOf after then
        some body.dropLast
      else none
    else none
  | [] => none

/-- Try the rule-2 regex at one start position: the opening triple fence, the
optional tag tried in alternation order `vim`, `viml`, empty, then `cbBody`. -/
def cbTryAt (cs : List Char) : Option (List Char) :=
  if ([btChar, btChar, btChar]).isPrefixOf cs then
    let r := cs.drop 3
    match (if ("vim".data).isPrefixOf r then cbBody (r.drop 3) else none) with
    | some g => some g
    | none =>
      match (if ("viml".data).isPrefixOf r then cbBody (r.drop 4) else none) with
      | some g => some g
      | none => cbBody r
  else none

/-- Scan for the first position where the rule-2 regex
`(triple fence)(?:vim|viml)?\n([^`]+)\n(triple fence)` matches. -/
def findCodeBlockAux : List Char → Option (List Char)
  | [] => none
  | c :: rest =>
    match cbTryAt (c :: rest) with
    | some g => some g
    | none => findCodeBlockAux rest

/-- Rule-2 search over the response text. -/
def findCodeBlock (text : String) : Option String :=
  (findCodeBlockAux text.data).map String.mk

/-- Try the rule-3 regex at one start position: a backtick, then the greedy
group `[^` + backtick + `\n]+`, then a closing backtick. -/
def btTryAt (cs : List Char) : Option (List Char) :=
  match cs with
  | c :: rest =>
    if c == btChar then
      let body := rest.takeWhile (fun x => !(x == btChar) && !(x == '\n'))
      let after := rest.dropWhile (fun x => !(x == btChar) && !(x == '\n'))
      if !body.isEmpty && after.head? == some btChar then some body else none
    else none
  | [] => none

/-- Scan for the first position where the rule-3 single-line backtick-span
regex matches. -/
def findBacktickAux : List Char → Option (List Char)
  | [] => none
  | c :: rest =>
    match btTryAt (c :: rest) with
    | some g => some g
    | none => findBacktickAux rest

/-- Rule-3 search over the response text. -/
def findBacktickSpan (text : String) : Option String :=
  (findBacktickAux text.data).map String.mk

/-- The code-fence markers skipped by rule 1 and rule 4. -/
def fenceMarkers : List String :=
  [String.mk [btChar, btChar, btChar],
   String.mk [btChar, btChar, btChar] ++ "vim",
   String.mk [btChar, btChar, btChar] ++ "viml"]

/-- Rule 4: scan the response line by line; skip blank lines and fence
markers; return the first cleaned line accepted by the likelihood predicate. -/
def scanLines : List String → String
  | [] => ""
  | l :: rest =>
    let l1 := pyStrip l
    if l1 == "" || ([btChar, btChar, btChar]).isPrefixOf l1.data then scanLines rest
    else
      let l2 := cleanBackticks l1
      if l2 != "" && looksLikeVimCommand l2 then l2 else scanLines rest

/-- Rules 2 to 4 of the extractor (the part reached when rule 1 yields
nothing usable). -/
def extractAfterSolutionRule (text : String) : String :=
  match findCodeBlock text with
  | some g =>
    let candidate := pyStrip g
    if candidate != "" && looksLikeVimCommand candidate then candidate
    else
      match findBacktickSpan text with
      | some g2 =>
        let candidate2 := pyStrip g2
        if candidate2 != "" && looksLikeVimCommand candidate2 then candidate2
        else scanLines (pySplitLines text)
      | none => scanLines (pySplitLines text)
  | none =>
    match findBacktickSpan text with
    | some g2 =>
      let candidate2 := pyStrip g2
      if candidate2 != "" && looksLikeVimCommand candidate2 then candidate2
      else scanLines (pySplitLines text)
    | none => scanLines (pySplitLines text)

/-- `extract_solution_from_response`: rule 1 (a `Solution:` line), falling
through to rules 2 to 4 when it yields a fence marker or a rejected
candidate. -/
def extractSolution (text : String) : String :=
  match findSolution text with
  | some g =>
    let candidate := pyStrip g
    if fenceMarkers.contains candidate then extractAfterSolutionRule text
    else
      let cleaned := cleanBackticks candidate
      if cleaned != "" && looksLikeVimCommand cleaned then cleaned
      else extractAfterSolutionRule text
  | none => extractAfterSolutionRule text

/-! ### Problems, evaluation and orchestration (vimgolf_solver.py:28-445)

The nvim engine run inside `_run_nvim_evaluation` and the OpenAI completion
call are external collaborators; they are modelled as oracle parameters.  An
`EngineOutcome` abstracts one evaluation attempt: the wall-clock timeout of
`asyncio.wait_for`, any exception raised while starting the session or
injecting keys and querying (all collapsed to score 0 by the source), or a
completed run yielding the final buffer lines. -/

/-- `VimGolfProblem` (timestamps and the unused `best_score` default carry
over directly). -/
structure VimGolfProblem where
  id : String
  title : String
  description : String
  start_text : String
  end_text : String
  best_score : Option Nat := none

/-- Outcome of one sandboxed nvim evaluation attempt, as observed by
`evaluate_solution`. -/
inductive EngineOutcome where
  | timeout
  | engineError
  | finished (resultLines : List String)

/-- `evaluate_solution`: returns the score together with a flag recording
whether `_run_nvim_evaluation` (and hence an editing session) was invoked.
Empty or whitespace-only candidates return 0 immediately; timeouts and
engine exceptions are converted to 0. -/
def evaluateSolution (outcome : EngineOutcome) (problem : VimGolfProblem)
    (keystrokeSequence : String) : Nat × Bool :=
  if keystrokeSequence == "" || pyStrip keystrokeSequence == "" then (0, false)
  else
    match outcome with
    | EngineOutcome.timeout => (0, true)
    | EngineOutcome.engineError => (0, true)
    | EngineOutcome.finished resultLines =>
      (evalCompare resultLines (pySplitLines problem.end_text), true)

/-- The per-problem record produced by `solve_problem` (the wall-clock timing
fields are outside the embedding; branch-specific dict keys become
`Option`s). -/
structure SolveResult where
  problem_id : String
  title : String
  solution : Option String
  keystroke_sequence : Option String
  keystroke_count : Nat
  eval_score : Nat
  success : Bool
  error : Option String

/-- `solve_problem`: the OpenAI call is the oracle `api` (an exception from
the call, or the response text); the nvim run for a candidate is the oracle
`engine`.  Any API failure is captured in the result record; on success the
response is extracted, counted and evaluated. -/
def solveProblem (api : VimGolfProblem → Except String String)
    (engine : String → EngineOutcome) (problem : VimGolfProblem) : SolveResult :=
  match api problem with
  | Except.error e =>
    { problem_id := problem.id, title := problem.title, solution := none,
      keystroke_sequence := none, keystroke_count := 0, eval_score := 0,
      success := false, error := some e }
  | Except.ok responseText =>
    let keystrokeSequence := extractSolution responseText
    let keystrokeCount := if keystrokeSequence != "" then countKeystrokes keystrokeSequence else 0
    let evalScore :=
      if keystrokeSequence != "" then
        (evaluateSolution (engine keystrokeSequence) problem keystrokeSequence).1
      else 0
    { problem_id := problem.id, title := problem.title, solution := some responseText,
      keystroke_sequence := some keystrokeSequence, keystroke_count := keystrokeCount,
      eval_score := evalScore, success := true, error := none }

/-- `solve_all_problems`: one task per problem; `asyncio.gather` returns the
results in task order. -/
def solveAllProblems (api : VimGolfProblem → Except String String)
    (engine : String → EngineOutcome) (problems : List VimGolfProblem) : List SolveResult :=
  problems.map (solveProblem api engine)

/-! ### The editing agent (src/pynvim_agents/vim_agent.py)

`RawNvimEditor` owns an external nvim process; its observable state is the
buffer, cursor and mode.  Keystroke semantics live in the engine, so
`type_keys` is modelled as an oracle `step : EdState → String → Option
EdState`, where `none` stands for a raised exception.  Python `RuntimeError`s
become `Except.error`. -/

/-- Observable state of a `RawNvimEditor` session. -/
structure EdState where
  buffer : List String
  cursor : Nat × Nat
  mode : String
deriving DecidableEq

/-- Engine oracle for `RawNvimEditor.type_keys`; `none` models a raised
exception. -/
def EngineStep : Type := EdState → String → Option EdState

/-- `VimEditCommand` (wall-clock timestamp outside the embedding;
`expected_result` is always `None` in the agent). -/
structure VimEditCommand where
  keystrokes : String
  description : String
deriving DecidableEq

/-- `VimAgentState` (wall-clock timestamp outside the embedding). -/
structure VimAgentState where
  buffer_content : List String
  cursor_position : Nat × Nat
  mode : String
deriving DecidableEq

/-- The snapshot taken by `get_current_state` from the editor queries. -/
def snapshotOf (ed : EdState) : VimAgentState :=
  { buffer_content := ed.buffer, cursor_position := ed.cursor, mode := ed.mode }

/-- `VimAgent` fields. -/
structure VimAgent where
  editor : EdState
  command_history : List VimEditCommand
  state_history : List VimAgentState
  active : Bool
deriving DecidableEq

/-- The message of the `RuntimeError` raised on an inactive agent. -/
def inactiveMsg : String := "Agent is not active"

/-- `VimAgent.__init__`: a fresh `RawNvimEditor` starts in normal mode with
cursor at the top (`normal! gg`), seeded with the initial lines, or a single
empty line when the argument is `None` or empty; the construction records the
initial state snapshot. -/
def VimAgent.init (initialContent : Option (List String)) : VimAgent :=
  let buffer := match initialContent with
    | some (l :: ls) => l :: ls
    | _ => [""]
  let ed : EdState := { buffer := buffer, cursor := (1, 0), mode := "n" }
  { editor := ed, command_history := [], state_history := [snapshotOf ed], active := true }

/-- `VimAgent.close`: idempotent deactivation (termination of the engine
process is external). -/
def VimAgent.close (a : VimAgent) : VimAgent :=
  if a.active then { a with active := false } else a

/-- `VimAgent.get_current_state`. -/
def VimAgent.getCurrentState (a : VimAgent) : Except String VimAgentState :=
  if !a.active then Except.error inactiveMsg
  else Except.ok (snapshotOf a.editor)

/-- `VimAgent.execute_command`: appends the command record unconditionally,
then injects the keystrokes; on success records the new state snapshot and
returns a success result, on an engine exception returns a failure result
without recording a snapshot. -/
def VimAgent.executeCommand (step : EngineStep) (a : VimAgent)
    (keystrokes description : String) : Except String (VimAgent × Bool) :=
  if !a.active then Except.error inactiveMsg
  else
    let a1 := { a with command_history := a.command_history ++ [⟨keystrokes, description⟩] }
    match step a.editor keystrokes with
    | some ed2 =>
      Except.ok ({ a1 with editor := ed2, state_history := a1.state_history ++ [snapshotOf ed2] }, true)
    | none => Except.ok (a1, false)

/-- `VimAgent.execute_commands`: sequential execution, short-circuiting after
the first failed command; a raised `RuntimeError` propagates. -/
def VimAgent.executeCommands (step : EngineStep) (a : VimAgent) :
    List (String × String) → Except String (VimAgent × List Bool)
  | [] => Except.ok (a, [])
  | cmd :: rest =>
    match VimAgent.executeCommand step a cmd.1 cmd.2 with
    | Except.error e => Except.error e
    | Except.ok (a2, success) =>
      if success then
        match VimAgent.executeCommands step a2 rest with
        | Except.error e => Except.error e
        | Except.ok (a3, results) => Except.ok (a3, success :: results)
      else Except.ok (a2, [success])

/-- The summary dictionary built by `get_buffer_summary`. -/
structure BufferSummary where
  line_count : Nat
  mode : String
  cursor_position : Nat × Nat
  current_line_number : Nat
  current_column : Nat
  current_line_content : String
  buffer_content : List String
  is_empty : Bool
  total_characters : Nat

/-- `VimAgent.get_buffer_summary` (buffer indexing is in bounds for states
produced by the engine, whose cursor row is always within the buffer). -/
def VimAgent.getBufferSummary (a : VimAgent) : Except String BufferSummary :=
  if !a.active then Except.error inactiveMsg
  else
    let st := snapshotOf a.editor
    let content := st.buffer_content
    Except.ok
      { line_count := content.length, mode := st.mode,
        cursor_position := st.cursor_position,
        current_line_number := st.cursor_position.1,
        current_column := st.cursor_position.2,
        current_line_content :=
          if content.isEmpty then "" else content.getD (st.cursor_position.1 - 1) "",
        buffer_content := content,
        is_empty := content.length == 1 && content.getD 0 "" == "",
        total_characters := (content.map String.length).sum }

/-- One annotated line of a context window. -/
structure ContextLine where
  line_number : Nat
  content : String
  is_cursor_line : Bool
  cursor_column : Option Nat

/-- The dictionary built by `get_context_window`. -/
structure ContextWindow where
  cursor_position : Nat × Nat
  mode : String
  context_lines : List ContextLine
  window_start : Nat
  window_end : Nat
  total_lines : Nat

/-- `VimAgent.get_context_window`: clamps the window to `[1, line_count]` and
annotates each line with cursor information. -/
def VimAgent.getContextWindow (a : VimAgent) (linesBefore linesAfter : Nat) :
    Except String ContextWindow :=
  if !a.active then Except.error inactiveMsg
  else
    let st := snapshotOf a.editor
    let content := st.buffer_content
    let cursorRow := st.cursor_position.1
    let startLine := max 1 (cursorRow - linesBefore)
    let endLine := min content.length (cursorRow + linesAfter)
    let contextLines := (List.range' startLine (endLine + 1 - startLine)).map
      (fun i =>
        { line_number := i,
          content := if i ≤ content.length then content.getD (i - 1) "" else "",
          is_cursor_line := i == cursorRow,
          cursor_column := if i == cursorRow then some st.cursor_position.2 else none })
    Except.ok
      { cursor_position := st.cursor_position, mode := st.mode,
        context_lines := contextLines, window_start := startLine,
        window_end := endLine, total_lines := content.length }

/-- The static hint list returned in normal mode. -/
def normalModeHints : List String :=
  ["i - Enter insert mode at cursor",
   "A - Enter insert mode at end of line",
   "o - Open new line below and enter insert mode",
   "O - Open new line above and enter insert mode",
   "dd - Delete current line",
   "yy - Yank (copy) current line",
   "p - Paste below cursor",
   "gg - Go to first line",
   "G - Go to last line",
   "/text - Search for " ++ String.singleton apoChar ++ "text" ++ String.singleton apoChar,
   ":%s/old/new/g - Replace all " ++ String.singleton apoChar ++ "old" ++
     String.singleton apoChar ++ " with " ++ String.singleton apoChar ++ "new" ++
     String.singleton apoChar]

/-- The static hint list returned in insert mode. -/
def insertModeHints : List String :=
  ["<Esc> - Return to normal mode",
   "Type text to insert at cursor",
   "<Enter> - Create new line",
   "<BS> - Backspace",
   "<C-w> - Delete word backwards"]

/-- The static hint list returned in visual mode. -/
def visualModeHints : List String :=
  ["d - Delete selection",
   "y - Yank (copy) selection",
   "<Esc> - Return to normal mode",
   "c - Change (delete and enter insert mode)"]

/-- `VimAgent.suggest_next_actions`: a pure function of the current mode;
only normal, insert and visual mode produce (fixed) suggestions. -/
def VimAgent.suggestNextActions (a : VimAgent) : Except String (List String) :=
  match VimAgent.getCurrentState a with
  | Except.error e => Except.error e
  | Except.ok st =>
    if st.mode == "n" then Except.ok normalModeHints
    else if st.mode == "i" then Except.ok insertModeHints
    else if st.mode == "v" then Except.ok visualModeHints
    else Except.ok []

/-- The session summary built by `get_editing_session_summary` (wall-clock
`session_duration` outside the embedding). -/
structure SessionSummary where
  total_commands : Nat
  current_state : VimAgentState
  command_history : List VimEditCommand
  state_changes : Nat

/-- `VimAgent.get_editing_session_summary`. -/
def VimAgent.getEditingSessionSummary (a : VimAgent) : Except String SessionSummary :=
  match VimAgent.getCurrentState a with
  | Except.error e => Except.error e
  | Except.ok st =>
    Except.ok
      { total_commands := a.command_history.length, current_state := st,
        command_history := a.command_history, state_changes := a.state_history.length }

/-- Python `f"{n:3d}"`: decimal rendering right-aligned to width 3. -/
def pad3 (n : Nat) : String :=
  let s := toString n
  if s.length < 3 then String.mk (List.replicate (3 - s.length) ' ') ++ s else s

/-- Rendering of one context line in `format_state_for_llm`, with the cursor
bar spliced into the cursor line. -/
def renderContextLine (l : ContextLine) : String :=
  let marker := if l.is_cursor_line then " ► " else "   "
  let content :=
    match l.cursor_column with
    | some pos =>
      if l.is_cursor_line then
        if pos < l.content.length then
          String.mk (l.content.data.take pos) ++ "│" ++ String.mk (l.content.data.drop pos)
        else l.content ++ "│"
      else l.content
    | none => l.content
  marker ++ pad3 l.line_number ++ ": " ++ content

/-- `VimAgent.format_state_for_llm`: when the session is inactive this
returns the fixed string `"Editor session is not active"` instead of
raising; otherwise it renders state, context and (optionally) the first five
suggestions. -/
def VimAgent.formatStateForLLM (a : VimAgent) (includeSuggestions : Bool) : String :=
  if !a.active then "Editor session is not active"
  else
    let st := snapshotOf a.editor
    let content := st.buffer_content
    let ctx := (List.range' (max 1 (st.cursor_position.1 - 3))
        (min content.length (st.cursor_position.1 + 3) + 1 - max 1 (st.cursor_position.1 - 3))).map
      (fun i =>
        ({ line_number := i,
           content := if i ≤ content.length then content.getD (i - 1) "" else "",
           is_cursor_line := i == st.cursor_position.1,
           cursor_column := if i == st.cursor_position.1 then some st.cursor_position.2 else none }
         : ContextLine))
    let headerLines :=
      ["=== VIM EDITOR STATE ===",
       "Mode: " ++ st.mode,
       "Cursor: Line " ++ toString st.cursor_position.1 ++ ", Column " ++ toString st.cursor_position.2,
       "Total Lines: " ++ toString content.length,
       "Total Characters: " ++ toString (content.map String.length).sum,
       "",
       "=== BUFFER CONTEXT ==="]
    let contextLines := ctx.map renderContextLine
    let suggestionLines :=
      if includeSuggestions then
        ["", "=== SUGGESTED ACTIONS ==="] ++
          (match VimAgent.suggestNextActions a with
           | Except.ok hints => (hints.take 5).map (fun s => "  • " ++ s)
           | Except.error _ => [])
      else []
    String.intercalate "\n" (headerLines ++ contextLines ++ suggestionLines)

/-! ## Theorems -/

/-! ### Lemmas about the scoring comparison -/

theorem dropWhile_dropWhile_of_imp {p q : String → Bool}
    (hpq : ∀ a, q a = true → p a = true) :
    ∀ l : List String, (l.dropWhile q).dropWhile p = l.dropWhile p := by
  intro l
  induction l with
  | nil => rfl
  | cons a t ih =>
    by_cases hq : q a = true
    · rw [List.dropWhile_cons_of_pos hq, List.dropWhile_cons_of_pos (hpq a hq), ih]
    · rw [List.dropWhile_cons_of_neg (by simpa using hq)]

theorem filter_dropWhile_of_imp {f p : String → Bool}
    (h : ∀ a, p a = true → f a = false) :
    ∀ l : List String, (l.dropWhile p).filter f = l.filter f := by
  intro l
  induction l with
  | nil => rfl
  | cons a t ih =>
    by_cases hp : p a = true
    · rw [List.dropWhile_cons_of_pos hp, ih, List.filter_cons_of_neg (by simp [h a hp])]
    · rw [List.dropWhile_cons_of_neg (by simpa using hp)]

theorem empty_implies_whollyEmpty : ∀ a : String, (a == "") = true → whollyEmpty a = true := by
  intro a ha
  have : a = "" := by simpa using ha
  subst this
  decide

theorem whollyEmpty_filter_false :
    ∀ a : String, whollyEmpty a = true → (pyStrip a != "") = false := by
  intro a ha
  simp only [whollyEmpty, beq_iff_eq] at ha
  simp [ha]

theorem specExact_of_codeExact {r e : List String}
    (h : dropTrailingWhile (fun line => line == "") r =
         dropTrailingWhile (fun line => line == "") e) :
    specExactMatch r e := by
  unfold dropTrailingWhile at h
  rw [List.reverse_inj] at h
  unfold specExactMatch dropTrailingWhile
  rw [List.reverse_inj]
  rw [← dropWhile_dropWhile_of_imp empty_implies_whollyEmpty r.reverse,
      ← dropWhile_dropWhile_of_imp empty_implies_whollyEmpty e.reverse, h]

theorem codeContent_of_specExact {r e : List String} (h : specExactMatch r e) :
    r.filter (fun line => pyStrip line != "") = e.filter (fun line => pyStrip line != "") := by
  unfold specExactMatch dropTrailingWhile at h
  rw [List.reverse_inj] at h
  have hr : r.filter (fun line => pyStrip line != "") =
      ((r.reverse.dropWhile whollyEmpty).filter (fun line => pyStrip line != "")).reverse := by
    rw [filter_dropWhile_of_imp whollyEmpty_filter_false, List.filter_reverse,
      List.reverse_reverse]
  have he : e.filter (fun line => pyStrip line != "") =
      ((e.reverse.dropWhile whollyEmpty).filter (fun line => pyStrip line != "")).reverse := by
    rw [filter_dropWhile_of_imp whollyEmpty_filter_false, List.filter_reverse,
      List.reverse_reverse]
  rw [hr, he, h]

theorem specContent_iff_codeContent {r e : List String} :
    specContentMatch r e ↔
      r.filter (fun line => pyStrip line != "") = e.filter (fun line => pyStrip line != "") := by
  unfold specContentMatch
  have hfun : (fun line => !whollyEmpty line) = (fun line : String => pyStrip line != "") := by
    funext line
    simp [whollyEmpty, bne]
  rw [hfun]

theorem evalCompare_eq_one_iff (r e : List String) :
    evalCompare r e = 1 ↔ specExactMatch r e ∨ specContentMatch r e := by
  simp only [evalCompare]
  split
  · rename_i hcond
    simp only [Bool.or_eq_true, beq_iff_eq] at hcond
    constructor
    · intro _
      rcases hcond with hexact | hcontent
      · exact Or.inl (specExact_of_codeExact hexact)
      · exact Or.inr (specContent_iff_codeContent.mpr hcontent)
    · intro _; rfl
  · rename_i hcond
    simp only [Bool.or_eq_true, beq_iff_eq, not_or] at hcond
    constructor
    · intro h; exact absurd h (by decide)
    · intro h
      rcases h with hexact | hcontent
      · exact absurd (codeContent_of_specExact hexact) hcond.2
      · exact absurd (specContent_iff_codeContent.mp hcontent) hcond.2

/-- C1: when an evaluation run completes (no timeout, no engine error), the
score is 1 iff the resulting lines equal the expected lines after stripping
only wholly-empty trailing lines (exact match), or after discarding every
wholly-empty line (content match); otherwise it is 0. -/
theorem score_iff_exact_or_content (p : VimGolfProblem) (ks : String) (lines : List String)
    (hks : pyStrip ks ≠ "") :
    (evaluateSolution (EngineOutcome.finished lines) p ks).1 = 1 ↔
      specExactMatch lines (pySplitLines p.end_text) ∨
      specContentMatch lines (pySplitLines p.end_text) := by
  have hks0 : ks ≠ "" := by
    intro h
    subst h
    exact hks (by decide)
  unfold evaluateSolution
  rw [if_neg (by simp [hks, hks0])]
  exact evalCompare_eq_one_iff lines (pySplitLines p.end_text)

/-- Witness for C1 at a concrete problem, candidate and resulting buffer. -/
theorem score_iff_exact_or_content_witness :
    (evaluateSolution (EngineOutcome.finished ["world there"])
        { id := "w", title := "w", description := "w",
          start_text := "hello there", end_text := "world there" }
        ":%s/hello/world/<CR>").1 = 1 ↔
      specExactMatch ["world there"] (pySplitLines "world there") ∨
      specContentMatch ["world there"] (pySplitLines "world there") :=
  score_iff_exact_or_content
    { id := "w", title := "w", description := "w",
      start_text := "hello there", end_text := "world there" }
    ":%s/hello/world/<CR>" ["world there"] (by decide)

/-! ### C3: evaluation short-circuits and never throws -/

theorem evalCompare_zero_or_one (r e : List String) :
    evalCompare r e = 0 ∨ evalCompare r e = 1 := by
  simp only [evalCompare]
  split
  · exact Or.inr rfl
  · exact Or.inl rfl

/-- C3: an empty or whitespace-only candidate scores 0 immediately without an
evaluation run being attempted, and every outcome (timeout, engine error,
completed run) yields a returned score of 0 or 1 — no exception escapes. -/
theorem evaluate_blank_and_total :
    (∀ outcome (p : VimGolfProblem) ks, pyStrip ks = "" →
      evaluateSolution outcome p ks = (0, false)) ∧
    (∀ outcome (p : VimGolfProblem) ks,
      (evaluateSolution outcome p ks).1 = 0 ∨ (evaluateSolution outcome p ks).1 = 1) ∧
    (∀ (p : VimGolfProblem) ks,
      (evaluateSolution EngineOutcome.timeout p ks).1 = 0 ∧
      (evaluateSolution EngineOutcome.engineError p ks).1 = 0) := by
  refine ⟨?_, ?_, ?_⟩
  · intro outcome p ks h
    simp [evaluateSolution, h]
  · intro outcome p ks
    unfold evaluateSolution
    split
    · exact Or.inl rfl
    · cases outcome with
      | timeout => exact Or.inl rfl
      | engineError => exact Or.inl rfl
      | finished lines => exact evalCompare_zero_or_one lines (pySplitLines p.end_text)
  · intro p ks
    constructor <;> (unfold evaluateSolution; split <;> rfl)

/-- Witness for C3 at a whitespace-only candidate and a concrete problem. -/
theorem evaluate_blank_and_total_witness :
    evaluateSolution (EngineOutcome.finished ["x"])
      { id := "w", title := "w", description := "w", start_text := "a", end_text := "b" }
      "  " = (0, false) :=
  evaluate_blank_and_total.1 (EngineOutcome.finished ["x"])
    { id := "w", title := "w", description := "w", start_text := "a", end_text := "b" }
    "  " (by decide)

/-! ### C5: rejected candidates are never returned -/

theorem scanLines_empty_or_accepted : ∀ ls : List String,
    scanLines ls = "" ∨ (scanLines ls ≠ "" ∧ looksLikeVimCommand (scanLines ls) = true) := by
  intro ls
  induction ls with
  | nil => exact Or.inl rfl
  | cons l rest ih =>
    simp only [scanLines]
    split
    · exact ih
    · split
      · rename_i hcond
        rw [Bool.and_eq_true] at hcond
        exact Or.inr ⟨by simpa using hcond.1, hcond.2⟩
      · exact ih

theorem afterSolution_empty_or_accepted : ∀ text : String,
    extractAfterSolutionRule text = "" ∨
      (extractAfterSolutionRule text ≠ "" ∧
        looksLikeVimCommand (extractAfterSolutionRule text) = true) := by
  intro text
  simp only [extractAfterSolutionRule]
  cases hcb : findCodeBlock text with
  | some g =>
    simp only []
    split
    · rename_i hcond
      rw [Bool.and_eq_true] at hcond
      exact Or.inr ⟨by simpa using hcond.1, hcond.2⟩
    · cases hbt : findBacktickSpan text with
      | some g2 =>
        simp only []
        split
        · rename_i hcond2
          rw [Bool.and_eq_true] at hcond2
          exact Or.inr ⟨by simpa using hcond2.1, hcond2.2⟩
        · exact scanLines_empty_or_accepted (pySplitLines text)
      | none => exact scanLines_empty_or_accepted (pySplitLines text)
  | none =>
    cases hbt : findBacktickSpan text with
    | some g2 =>
      simp only []
      split
      · rename_i hcond2
        rw [Bool.and_eq_true] at hcond2
        exact Or.inr ⟨by simpa using hcond2.1, hcond2.2⟩
      · exact scanLines_empty_or_accepted (pySplitLines text)
    | none => exact scanLines_empty_or_accepted (pySplitLines text)

/-- C5: the extractor either returns the empty string (the legitimate "no
usable answer" outcome, as on empty input or input with no command-like
content) or a non-empty candidate that passed the command-likelihood
predicate — a structurally-found but rejected candidate is never returned. -/
theorem extractor_empty_or_accepted :
    (∀ text, extractSolution text = "" ∨
      (extractSolution text ≠ "" ∧ looksLikeVimCommand (extractSolution text) = true)) ∧
    extractSolution "" = "" ∧ extractSolution "12345" = "" := by
  refine ⟨?_, by decide, by decide⟩
  intro text
  simp only [extractSolution]
  cases hs : findSolution text with
  | some g =>
    simp only []
    split
    · exact afterSolution_empty_or_accepted text
    · split
      · rename_i hcond
        rw [Bool.and_eq_true] at hcond
        exact Or.inr ⟨by simpa using hcond.1, hcond.2⟩
      · exact afterSolution_empty_or_accepted text
  | none => exact afterSolution_empty_or_accepted text

/-! ### C8: per-problem failure capture and complete result lists -/

/-- C8: an API failure for a problem is captured in that problem's own result
record (success `false`, the error detail, score 0, keystroke count 0), a
successful API call yields a success record, and the orchestrator always
returns exactly one result per input problem, in order, each produced
independently by `solveProblem`. -/
theorem solver_captures_failures :
    (∀ api engine (p : VimGolfProblem) e, api p = Except.error e →
      (solveProblem api engine p).success = false ∧
      (solveProblem api engine p).error = some e ∧
      (solveProblem api engine p).eval_score = 0 ∧
      (solveProblem api engine p).keystroke_count = 0 ∧
      (solveProblem api engine p).problem_id = p.id) ∧
    (∀ api engine (p : VimGolfProblem) r, api p = Except.ok r →
      (solveProblem api engine p).success = true) ∧
    (∀ api engine (ps : List VimGolfProblem),
      (solveAllProblems api engine ps).length = ps.length) ∧
    (∀ api engine (ps : List VimGolfProblem) (i : Nat),
      (solveAllProblems api engine ps)[i]? = ps[i]?.map (solveProblem api engine)) := by
  refine ⟨?_, ?_, ?_, ?_⟩
  · intro api engine p e h
    simp [solveProblem, h]
  · intro api engine p r h
    simp [solveProblem, h]
  · intro api engine ps
    simp [solveAllProblems]
  · intro api engine ps i
    simp [solveAllProblems, List.getElem?_map]

/-- Witness for C8 at a concrete failing API and problem. -/
theorem solver_captures_failures_witness :
    (solveProblem (fun _ => Except.error "boom") (fun _ => EngineOutcome.timeout)
        { id := "w", title := "w", description := "w", start_text := "a", end_text := "b" }).success = false ∧
    (solveProblem (fun _ => Except.error "boom") (fun _ => EngineOutcome.timeout)
        { id := "w", title := "w", description := "w", start_text := "a", end_text := "b" }).error = some "boom" ∧
    (solveProblem (fun _ => Except.error "boom") (fun _ => EngineOutcome.timeout)
        { id := "w", title := "w", description := "w", start_text := "a", end_text := "b" }).eval_score = 0 ∧
    (solveProblem (fun _ => Except.error "boom") (fun _ => EngineOutcome.timeout)
        { id := "w", title := "w", description := "w", start_text := "a", end_text := "b" }).keystroke_count = 0 ∧
    (solveProblem (fun _ => Except.error "boom") (fun _ => EngineOutcome.timeout)
        { id := "w", title := "w", description := "w", start_text := "a", end_text := "b" }).problem_id = "w" :=
  solver_captures_failures.1 (fun _ => Except.error "boom") (fun _ => EngineOutcome.timeout)
    { id := "w", title := "w", description := "w", start_text := "a", end_text := "b" }
    "boom" rfl

/-! ### C10: suggestions for unhandled modes -/

/-- C10: on an active agent, `suggest_next_actions` returns the empty list for
every mode other than normal, insert and visual, and each of those three
modes returns its fixed non-empty static hint list. -/
theorem suggest_modes_exhaustive (a : VimAgent) (ha : a.active = true) :
    (a.editor.mode ≠ "n" → a.editor.mode ≠ "i" → a.editor.mode ≠ "v" →
      VimAgent.suggestNextActions a = Except.ok []) ∧
    (a.editor.mode = "n" → VimAgent.suggestNextActions a = Except.ok normalModeHints) ∧
    (a.editor.mode = "i" → VimAgent.suggestNextActions a = Except.ok insertModeHints) ∧
    (a.editor.mode = "v" → VimAgent.suggestNextActions a = Except.ok visualModeHints) ∧
    normalModeHints ≠ [] ∧ insertModeHints ≠ [] ∧ visualModeHints ≠ [] := by
  refine ⟨?_, ?_, ?_, ?_, by decide, by decide, by decide⟩
  · intro h1 h2 h3
    simp [VimAgent.suggestNextActions, VimAgent.getCurrentState, ha, snapshotOf, h1, h2, h3]
  · intro h
    simp [VimAgent.suggestNextActions, VimAgent.getCurrentState, ha, snapshotOf, h]
  · intro h
    simp [VimAgent.suggestNextActions, VimAgent.getCurrentState, ha, snapshotOf, h]
  · intro h
    simp [VimAgent.suggestNextActions, VimAgent.getCurrentState, ha, snapshotOf, h]

/-- Witness for C10 at concrete agents in replace and normal mode. -/
theorem suggest_modes_exhaustive_witness :
    VimAgent.suggestNextActions
      { editor := { buffer := [""], cursor := (1, 0), mode := "R" },
        command_history := [], state_history := [], active := true } = Except.ok [] ∧
    VimAgent.suggestNextActions
      { editor := { buffer := [""], cursor := (1, 0), mode := "n" },
        command_history := [], state_history := [], active := true } = Except.ok normalModeHints :=
  ⟨(suggest_modes_exhaustive
      { editor := { buffer := [""], cursor := (1, 0), mode := "R" },
        command_history := [], state_history := [], active := true } rfl).1
      (by decide) (by decide) (by decide),
   (suggest_modes_exhaustive
      { editor := { buffer := [""], cursor := (1, 0), mode := "n" },
        command_history := [], state_history := [], active := true } rfl).2.1 rfl⟩

/-! ### Pattern-matching lemmas shared by the keystroke-count claims -/

theorem charMatchCI_symbol_left {p x : Char} (hp : p.isAlpha = false)
    (h : charMatchCI p x = true) : x = p := by
  simp [charMatchCI, hp] at h
  exact h.symm

theorem charMatchCI_symbol_right {p x : Char} (hx : x.isAlpha = false)
    (h : charMatchCI p x = true) : p = x := by
  simp [charMatchCI, hx] at h
  exact h

theorem wfAlt_shape {alt : List Atom} (h : wfAlt alt = true) :
    ∃ rest, alt = Atom.lit '<' :: rest ∧ wfTail rest = true := by
  match alt, h with
  | Atom.lit c :: rest, h =>
    simp only [wfAlt, Bool.and_eq_true, beq_iff_eq] at h
    exact ⟨rest, by rw [h.1], h.2⟩
  | [], h => simp [wfAlt] at h
  | Atom.alnum :: rest, h => simp [wfAlt] at h
  | Atom.alpha :: rest, h => simp [wfAlt] at h
  | Atom.digits :: rest, h => simp [wfAlt] at h

theorem matchAtoms_wf_nil {alt : List Atom} (h : wfAlt alt = true) :
    matchAtoms alt [] = none := by
  obtain ⟨rest, rfl, -⟩ := wfAlt_shape h
  rfl

theorem matchAtoms_wf_cons_ne {alt : List Atom} {c : Char} {cs : List Char}
    (h : wfAlt alt = true) (hc : c ≠ '<') : matchAtoms alt (c :: cs) = none := by
  obtain ⟨rest, rfl, -⟩ := wfAlt_shape h
  simp only [matchAtoms]
  rw [if_neg]
  intro hm
  exact hc (charMatchCI_symbol_left (by decide) hm)

theorem matchPattern_wf_nil {pat : List (List Atom)} (h : pat.all wfAlt = true) :
    matchPattern pat [] = none := by
  induction pat with
  | nil => rfl
  | cons alt pat ih =>
    rw [List.all_cons, Bool.and_eq_true] at h
    have := ih h.2
    simp only [matchPattern, List.findSome?_cons, matchAtoms_wf_nil h.1] at this ⊢
    exact this

theorem matchPattern_wf_cons_ne {pat : List (List Atom)} {c : Char} {cs : List Char}
    (h : pat.all wfAlt = true) (hc : c ≠ '<') : matchPattern pat (c :: cs) = none := by
  induction pat with
  | nil => rfl
  | cons alt pat ih =>
    rw [List.all_cons, Bool.and_eq_true] at h
    have := ih h.2
    simp only [matchPattern, List.findSome?_cons, matchAtoms_wf_cons_ne h.1 hc] at this ⊢
    exact this

theorem runPattern_no_lt {pat : List (List Atom)} (h : pat.all wfAlt = true) :
    ∀ fuel cs, (∀ c ∈ cs, c ≠ '<') → runPattern pat fuel cs = (0, cs) := by
  intro fuel
  induction fuel with
  | zero => intro cs _; rfl
  | succ n ih =>
    intro cs hcs
    cases cs with
    | nil => rfl
    | cons c rest =>
      have hc : c ≠ '<' := hcs c (List.mem_cons_self c rest)
      simp only [runPattern, matchPattern_wf_cons_ne h hc]
      rw [ih rest (fun x hx => hcs x (List.mem_cons_of_mem c hx))]

theorem runPatterns_no_lt :
    ∀ (pats : List (List (List Atom))), pats.all (fun p => p.all wfAlt) = true →
    ∀ (acc : Nat) (cs : List Char), (∀ c ∈ cs, c ≠ '<') →
    runPatterns pats acc cs = (acc, cs) := by
  intro pats
  induction pats with
  | nil => intro _ acc cs _; rfl
  | cons pat pats ih =>
    intro h acc cs hcs
    rw [List.all_cons, Bool.and_eq_true] at h
    simp only [runPatterns, runPattern_no_lt h.1 cs.length cs hcs]
    simpa using ih h.2 acc cs hcs

theorem specialKeyPatterns_wf : specialKeyPatterns.all (fun p => p.all wfAlt) = true := by
  decide

/-- C9: the empty sequence counts 0 keystrokes, and a sequence of literal
characters only (no bracket-delimited special-key tokens, i.e. no `<`)
counts exactly its length. -/
theorem count_literal_matches_length :
    countKeystrokes "" = 0 ∧
    ∀ s : String, (∀ c ∈ s.data, c ≠ '<') → countKeystrokes s = s.length := by
  refine ⟨rfl, ?_⟩
  intro s hs
  by_cases h0 : s = ""
  · subst h0; rfl
  · unfold countKeystrokes
    rw [if_neg (by simpa using h0),
      runPatterns_no_lt specialKeyPatterns specialKeyPatterns_wf 0 s.data hs]
    exact Nat.zero_add _

/-- Witness for C9 at a concrete literal-only sequence. -/
theorem count_literal_matches_length_witness :
    countKeystrokes "dd" = ("dd" : String).length :=
  count_literal_matches_length.2 "dd" (by decide)

/-! ### Structure of special-key token matches (for C2)

Every alternative of every pattern has the shape `<`, interior atoms, `>`;
consequently a match consumes a bracket-free interior up to the first `>`,
which pins down consumed spans exactly and makes matching stable under
appending further input. -/

theorem ne_brackets_of_isDigit {x : Char} (h : x.isDigit = true) : x ≠ '<' ∧ x ≠ '>' := by
  constructor <;> (intro e; subst e; exact absurd h (by decide))

theorem ne_brackets_of_isAlphanum {x : Char} (h : x.isAlphanum = true) : x ≠ '<' ∧ x ≠ '>' := by
  constructor <;> (intro e; subst e; exact absurd h (by decide))

theorem ne_brackets_of_isAlpha {x : Char} (h : x.isAlpha = true) : x ≠ '<' ∧ x ≠ '>' := by
  constructor <;> (intro e; subst e; exact absurd h (by decide))

theorem innerAtom_lit {c : Char} (h : innerAtom (Atom.lit c) = true) : c ≠ '<' ∧ c ≠ '>' := by
  simpa [innerAtom, Bool.and_eq_true] using h

theorem matchAtoms_wf_shape : ∀ (as : List Atom), wfTail as = true →
    ∀ (cs rest : List Char), matchAtoms as cs = some rest →
    ∃ b, cs = b ++ '>' :: rest ∧ ∀ x ∈ b, x ≠ '<' ∧ x ≠ '>' := by
  intro as
  induction as with
  | nil => intro h; simp [wfTail] at h
  | cons a as2 ih =>
    intro hwf cs rest hm
    cases as2 with
    | nil =>
      cases a with
      | lit c =>
        have hc : c = '>' := by simpa [wfTail] using hwf
        subst hc
        cases cs with
        | nil => exact absurd hm (by simp [matchAtoms])
        | cons x xs =>
          simp only [matchAtoms] at hm
          by_cases hcm : charMatchCI '>' x = true
          · rw [if_pos hcm] at hm
            simp only [matchAtoms, Option.some_inj] at hm
            have hx : x = '>' := charMatchCI_symbol_left (by decide) hcm
            subst hx
            exact ⟨[], by simp [hm], by simp⟩
          · rw [if_neg hcm] at hm
            exact absurd hm (by simp)
      | alnum => simp [wfTail, innerAtom] at hwf
      | alpha => simp [wfTail, innerAtom] at hwf
      | digits => simp [wfTail, innerAtom] at hwf
    | cons a2 as3 =>
      have hwf2 : innerAtom a = true ∧ wfTail (a2 :: as3) = true := by
        simpa [wfTail, Bool.and_eq_true] using hwf
      cases a with
      | lit c =>
        have hcc := innerAtom_lit hwf2.1
        cases cs with
        | nil => exact absurd hm (by simp [matchAtoms])
        | cons x xs =>
          simp only [matchAtoms] at hm
          by_cases hcm : charMatchCI c x = true
          · rw [if_pos hcm] at hm
            obtain ⟨b, hb, hbmem⟩ := ih hwf2.2 xs rest hm
            refine ⟨x :: b, by simp [hb], ?_⟩
            intro y hy
            rcases List.mem_cons.mp hy with rfl | hyb
            · constructor
              · intro e
                exact hcc.1 (charMatchCI_symbol_right (by rw [e]; decide) hcm ▸ (e ▸ rfl))
              · intro e
                exact hcc.2 (charMatchCI_symbol_right (by rw [e]; decide) hcm ▸ (e ▸ rfl))
            · exact hbmem y hyb
          · rw [if_neg hcm] at hm
            exact absurd hm (by simp)
      | alnum =>
        cases cs with
        | nil => exact absurd hm (by simp [matchAtoms])
        | cons x xs =>
          simp only [matchAtoms] at hm
          by_cases hx : x.isAlphanum = true
          · rw [if_pos hx] at hm
            obtain ⟨b, hb, hbmem⟩ := ih hwf2.2 xs rest hm
            refine ⟨x :: b, by simp [hb], ?_⟩
            intro y hy
            rcases List.mem_cons.mp hy with rfl | hyb
            · exact ne_brackets_of_isAlphanum hx
            · exact hbmem y hyb
          · rw [if_neg hx] at hm
            exact absurd hm (by simp)
      | alpha =>
        cases cs with
        | nil => exact absurd hm (by simp [matchAtoms])
        | cons x xs =>
          simp only [matchAtoms] at hm
          by_cases hx : x.isAlpha = true
          · rw [if_pos hx] at hm
            obtain ⟨b, hb, hbmem⟩ := ih hwf2.2 xs rest hm
            refine ⟨x :: b, by simp [hb], ?_⟩
            intro y hy
            rcases List.mem_cons.mp hy with rfl | hyb
            · exact ne_brackets_of_isAlpha hx
            · exact hbmem y hyb
          · rw [if_neg hx] at hm
            exact absurd hm (by simp)
      | digits =>
        simp only [matchAtoms] at hm
        by_cases hts : (cs.takeWhile Char.isDigit).isEmpty = true
        · rw [if_pos hts] at hm
          exact absurd hm (by simp)
        · rw [if_neg hts] at hm
          obtain ⟨b, hb, hbmem⟩ := ih hwf2.2 _ rest hm
          refine ⟨cs.takeWhile Char.isDigit ++ b, ?_, ?_⟩
          · rw [List.append_assoc, ← hb, List.takeWhile_append_dropWhile]
          · intro y hy
            rcases List.mem_append.mp hy with hyt | hyb
            · exact ne_brackets_of_isDigit (List.mem_takeWhile_imp hyt)
            · exact hbmem y hyb

theorem gtFree_firstGt : ∀ (b b2 rest rest2 : List Char),
    (∀ x ∈ b, x ≠ '>') → (∀ x ∈ b2, x ≠ '>') →
    b ++ '>' :: rest = b2 ++ '>' :: rest2 → b = b2 ∧ rest = rest2 := by
  intro b
  induction b with
  | nil =>
    intro b2 rest rest2 _ hb2 heq
    cases b2 with
    | nil => simpa using heq
    | cons y b2t =>
      simp only [List.nil_append, List.cons_append, List.cons.injEq] at heq
      exact absurd heq.1.symm (hb2 y (List.mem_cons_self y b2t))
  | cons x bt ih =>
    intro b2 rest rest2 hb hb2 heq
    cases b2 with
    | nil =>
      simp only [List.nil_append, List.cons_append, List.cons.injEq] at heq
      exact absurd heq.1 (hb x (List.mem_cons_self x bt))
    | cons y b2t =>
      simp only [List.cons_append, List.cons.injEq] at heq
      obtain ⟨h1, h2⟩ := ih b2t rest rest2
        (fun z hz => hb z (List.mem_cons_of_mem x hz))
        (fun z hz => hb2 z (List.mem_cons_of_mem y hz)) heq.2
      exact ⟨by rw [heq.1, h1], h2⟩

theorem takeWhile_append_stop {p : Char → Bool} {c : Char} (hc : p c = false) :
    ∀ (u v : List Char), (u ++ c :: v).takeWhile p = u.takeWhile p ∧
      (u ++ c :: v).dropWhile p = u.dropWhile p ++ c :: v := by
  intro u
  induction u with
  | nil =>
    intro v
    constructor
    · simp [List.takeWhile_cons, hc]
    · simp [List.dropWhile_cons, hc]
  | cons x ut ih =>
    intro v
    by_cases hx : p x = true
    · constructor
      · simp [List.takeWhile_cons, hx, (ih v).1]
      · simp [List.dropWhile_cons, hx, (ih v).2]
    · replace hx : p x = false := by simpa using hx
      constructor
      · simp [List.cons_append, List.takeWhile_cons, hx]
      · simp [List.cons_append, List.dropWhile_cons, hx]

theorem matchAtoms_extend : ∀ (as : List Atom), wfTail as = true →
    ∀ (b : List Char), (∀ x ∈ b, x ≠ '>') → ∀ (rest : List Char),
    matchAtoms as (b ++ '>' :: rest) =
      if matchAtoms as (b ++ ['>']) == some [] then some rest else none := by
  intro as
  induction as with
  | nil => intro h; simp [wfTail] at h
  | cons a as2 ih =>
    intro hwf b hb rest
    cases as2 with
    | nil =>
      cases a with
      | lit c =>
        have hc : c = '>' := by simpa [wfTail] using hwf
        subst hc
        cases b with
        | nil => simp [matchAtoms, charMatchCI]
        | cons y bt =>
          have hy : charMatchCI '>' y = false := by
            by_contra hcon
            exact hb y (List.mem_cons_self y bt)
              (charMatchCI_symbol_left (by decide) (by simpa using hcon))
          simp [matchAtoms, hy]
      | alnum => simp [wfTail, innerAtom] at hwf
      | alpha => simp [wfTail, innerAtom] at hwf
      | digits => simp [wfTail, innerAtom] at hwf
    | cons a2 as3 =>
      have hwf2 : innerAtom a = true ∧ wfTail (a2 :: as3) = true := by
        simpa [wfTail, Bool.and_eq_true] using hwf
      cases a with
      | lit c =>
        have hcc := innerAtom_lit hwf2.1
        cases b with
        | nil =>
          have hcg : charMatchCI c '>' = false := by
            by_contra hcon
            exact hcc.2 (charMatchCI_symbol_right (by decide) (by simpa using hcon))
          simp [matchAtoms, hcg]
        | cons y bt =>
          by_cases hcm : charMatchCI c y = true
          · simp only [List.cons_append, matchAtoms, if_pos hcm]
            exact ih hwf2.2 bt (fun z hz => hb z (List.mem_cons_of_mem y hz)) rest
          · replace hcm : charMatchCI c y = false := by simpa using hcm
            simp [matchAtoms, hcm]
      | alnum =>
        cases b with
        | nil => simp [matchAtoms]
        | cons y bt =>
          by_cases hy : y.isAlphanum = true
          · simp only [List.cons_append, matchAtoms, if_pos hy]
            exact ih hwf2.2 bt (fun z hz => hb z (List.mem_cons_of_mem y hz)) rest
          · replace hy : y.isAlphanum = false := by simpa using hy
            simp [matchAtoms, hy]
      | alpha =>
        cases b with
        | nil => simp [matchAtoms]
        | cons y bt =>
          by_cases hy : y.isAlpha = true
          · simp only [List.cons_append, matchAtoms, if_pos hy]
            exact ih hwf2.2 bt (fun z hz => hb z (List.mem_cons_of_mem y hz)) rest
          · replace hy : y.isAlpha = false := by simpa using hy
            simp [matchAtoms, hy]
      | digits =>
        have hgd : Char.isDigit '>' = false := by decide
        have h1 := takeWhile_append_stop (p := Char.isDigit) hgd b rest
        have h2 := takeWhile_append_stop (p := Char.isDigit) hgd b ([] : List Char)
        simp only [matchAtoms, h1.1, h1.2, h2.1, h2.2]
        cases hts : (b.takeWhile Char.isDigit).isEmpty with
        | true => simp [hts]
        | false =>
          simp only [Bool.false_eq_true, if_false]
          exact ih hwf2.2 (b.dropWhile Char.isDigit)
            (fun z hz => hb z ((List.dropWhile_sublist Char.isDigit).mem hz)) rest

theorem matchAtoms_token_extend {alt : List Atom} (h : wfAlt alt = true) {b : List Char}
    (hb : ∀ x ∈ b, x ≠ '>') (rest : List Char) :
    matchAtoms alt ('<' :: (b ++ '>' :: rest)) =
      if matchAtoms alt ('<' :: (b ++ ['>'])) == some [] then some rest else none := by
  obtain ⟨as2, rfl, hwf⟩ := wfAlt_shape h
  have hcm : charMatchCI '<' '<' = true := by decide
  simp only [matchAtoms, if_pos hcm]
  exact matchAtoms_extend as2 hwf b hb rest

theorem matchAtoms_token_plain {alt : List Atom} (h : wfAlt alt = true) {b : List Char}
    (hb : ∀ x ∈ b, x ≠ '>') {r : List Char}
    (hm : matchAtoms alt ('<' :: (b ++ ['>'])) = some r) : r = [] := by
  obtain ⟨as2, rfl, hwf⟩ := wfAlt_shape h
  have hcm : charMatchCI '<' '<' = true := by decide
  simp only [matchAtoms, if_pos hcm] at hm
  obtain ⟨b2, hb2eq, hb2⟩ := matchAtoms_wf_shape as2 hwf _ r hm
  exact (gtFree_firstGt b b2 [] r hb (fun x hx => (hb2 x hx).2) hb2eq).2.symm

theorem matchPattern_token_plain {b : List Char} (hbgt : ∀ x ∈ b, x ≠ '>') :
    ∀ (pat : List (List Atom)), pat.all wfAlt = true → ∀ (r : List Char),
    matchPattern pat ('<' :: (b ++ ['>'])) = some r → r = [] := by
  intro pat
  induction pat with
  | nil => intro _ r hm; exact absurd hm (by simp [matchPattern])
  | cons alt pat2 ih =>
    intro h r hm
    rw [List.all_cons, Bool.and_eq_true] at h
    simp only [matchPattern, List.findSome?_cons] at hm
    cases hma : matchAtoms alt ('<' :: (b ++ ['>'])) with
    | none =>
      rw [hma] at hm
      exact ih h.2 r (by simpa [matchPattern] using hm)
    | some r2 =>
      rw [hma] at hm
      simp only [Option.some_inj] at hm
      rw [← hm]
      exact matchAtoms_token_plain h.1 hbgt hma

theorem matchPattern_token_extend {b : List Char} (hb : ∀ x ∈ b, x ≠ '>')
    (rest : List Char) :
    ∀ (pat : List (List Atom)), pat.all wfAlt = true →
    matchPattern pat ('<' :: (b ++ '>' :: rest)) =
      if matchPattern pat ('<' :: (b ++ ['>'])) == some [] then some rest else none := by
  intro pat
  induction pat with
  | nil => simp [matchPattern]
  | cons alt pat2 ih =>
    intro h
    rw [List.all_cons, Bool.and_eq_true] at h
    cases hma : matchAtoms alt ('<' :: (b ++ ['>'])) with
    | none =>
      have hext : matchAtoms alt ('<' :: (b ++ '>' :: rest)) = none := by
        rw [matchAtoms_token_extend h.1 hb rest, hma]
        rfl
      have := ih h.2
      simp only [matchPattern, List.findSome?_cons, hma, hext] at this ⊢
      exact this
    | some r =>
      have hr : r = [] := matchAtoms_token_plain h.1 hb hma
      subst hr
      have hext : matchAtoms alt ('<' :: (b ++ '>' :: rest)) = some rest := by
        rw [matchAtoms_token_extend h.1 hb rest, hma]
        rfl
      simp only [matchPattern, List.findSome?_cons, hma, hext]
      rfl

theorem runPattern_fuel_nil {pat : List (List Atom)} :
    ∀ fuel, runPattern pat fuel [] = (0, []) := by
  intro fuel
  cases fuel <;> rfl

theorem runPattern_step_some {pat : List (List Atom)} {fuel : Nat} {c : Char}
    {cs r : List Char} (h : matchPattern pat (c :: cs) = some r) :
    runPattern pat (fuel + 1) (c :: cs) =
      ((runPattern pat fuel r).1 + 1, (runPattern pat fuel r).2) := by
  simp [runPattern, h]

theorem runPattern_step_none {pat : List (List Atom)} {fuel : Nat} {c : Char}
    {cs : List Char} (h : matchPattern pat (c :: cs) = none) :
    runPattern pat (fuel + 1) (c :: cs) =
      ((runPattern pat fuel cs).1, c :: (runPattern pat fuel cs).2) := by
  simp [runPattern, h]

theorem runPattern_token_match {pat : List (List Atom)} {b : List Char}
    (hm : matchPattern pat ('<' :: (b ++ ['>'])) = some []) :
    ∀ fuel, runPattern pat (fuel + 1) ('<' :: (b ++ ['>'])) = (1, []) := by
  intro fuel
  simp [runPattern, hm, runPattern_fuel_nil]

theorem runPattern_token_nomatch {pat : List (List Atom)} (h : pat.all wfAlt = true)
    {b : List Char} (hblt : ∀ x ∈ b, x ≠ '<')
    (hm : matchPattern pat ('<' :: (b ++ ['>'])) = none) :
    ∀ fuel, runPattern pat (fuel + 1) ('<' :: (b ++ ['>'])) = (0, '<' :: (b ++ ['>'])) := by
  intro fuel
  have hrest : ∀ c ∈ b ++ ['>'], c ≠ '<' := by
    intro c hc
    rcases List.mem_append.mp hc with h1 | h2
    · exact hblt c h1
    · simp only [List.mem_singleton] at h2
      subst h2
      decide
  simp [runPattern, hm, runPattern_no_lt h fuel _ hrest]

theorem runPattern_append_no_lt {pat : List (List Atom)} (h : pat.all wfAlt = true) :
    ∀ (u : List Char), (∀ c ∈ u, c ≠ '<') → ∀ fuel cs,
    runPattern pat (u.length + fuel) (u ++ cs) =
      ((runPattern pat fuel cs).1, u ++ (runPattern pat fuel cs).2) := by
  intro u
  induction u with
  | nil => intro _ fuel cs; simp
  | cons c ut ih =>
    intro hu fuel cs
    have hc : c ≠ '<' := hu c (List.mem_cons_self c ut)
    have hfuel : (c :: ut).length + fuel = (ut.length + fuel) + 1 := by
      simp [List.length_cons]
      omega
    rw [hfuel]
    simp only [List.cons_append]
    rw [runPattern_step_none (matchPattern_wf_cons_ne h hc),
      ih (fun z hz => hu z (List.mem_cons_of_mem c hz)) fuel cs]

theorem runPattern_token2_match {pat : List (List Atom)} (h : pat.all wfAlt = true)
    {b : List Char} (hbgt : ∀ x ∈ b, x ≠ '>')
    (hm : matchPattern pat ('<' :: (b ++ ['>'])) = some []) :
    ∀ fuel, runPattern pat (fuel + 2)
      (('<' :: (b ++ ['>'])) ++ ('<' :: (b ++ ['>']))) = (2, []) := by
  intro fuel
  have happ : ('<' :: (b ++ ['>'])) ++ ('<' :: (b ++ ['>'])) =
      '<' :: (b ++ '>' :: ('<' :: (b ++ ['>']))) := by
    simp
  rw [happ]
  have hext : matchPattern pat ('<' :: (b ++ '>' :: ('<' :: (b ++ ['>'])))) =
      some ('<' :: (b ++ ['>'])) := by
    rw [matchPattern_token_extend hbgt _ pat h, hm]
    rfl
  show runPattern pat ((fuel + 1) + 1) _ = _
  rw [runPattern_step_some hext, runPattern_token_match hm fuel]

theorem runPattern_token2_nomatch {pat : List (List Atom)} (h : pat.all wfAlt = true)
    {b : List Char} (hblt : ∀ x ∈ b, x ≠ '<') (hbgt : ∀ x ∈ b, x ≠ '>')
    (hm : matchPattern pat ('<' :: (b ++ ['>'])) = none) :
    ∀ fuel, runPattern pat ((b ++ ['>']).length + fuel + 2)
      (('<' :: (b ++ ['>'])) ++ ('<' :: (b ++ ['>']))) =
      (0, ('<' :: (b ++ ['>'])) ++ ('<' :: (b ++ ['>']))) := by
  intro fuel
  have hu : ∀ c ∈ b ++ ['>'], c ≠ '<' := by
    intro c hc
    rcases List.mem_append.mp hc with h1 | h2
    · exact hblt c h1
    · simp only [List.mem_singleton] at h2
      subst h2
      decide
  have happ : ('<' :: (b ++ ['>'])) ++ ('<' :: (b ++ ['>'])) =
      '<' :: ((b ++ ['>']) ++ ('<' :: (b ++ ['>']))) := by
    simp
  rw [happ]
  have hlist : (b ++ ['>']) ++ ('<' :: (b ++ ['>'])) = b ++ '>' :: ('<' :: (b ++ ['>'])) := by
    simp
  have hext : matchPattern pat ('<' :: ((b ++ ['>']) ++ ('<' :: (b ++ ['>'])))) = none := by
    rw [hlist, matchPattern_token_extend hbgt _ pat h, hm]
    rfl
  show runPattern pat (((b ++ ['>']).length + (fuel + 1)) + 1) _ = _
  rw [runPattern_step_none hext,
    runPattern_append_no_lt h (b ++ ['>']) hu (fuel + 1) ('<' :: (b ++ ['>'])),
    runPattern_token_nomatch h hblt hm fuel]

theorem runPatterns_nil_input : ∀ (pats : List (List (List Atom))) (acc : Nat),
    runPatterns pats acc [] = (acc, []) := by
  intro pats
  induction pats with
  | nil => intro acc; rfl
  | cons pat pats ih =>
    intro acc
    simp only [runPatterns, List.length_nil, runPattern_fuel_nil]
    simpa using ih acc

theorem runPatterns_token {b : List Char} (hblt : ∀ x ∈ b, x ≠ '<')
    (hbgt : ∀ x ∈ b, x ≠ '>') :
    ∀ (pats : List (List (List Atom))), pats.all (fun p => p.all wfAlt) = true →
    (∃ p ∈ pats, matchPattern p ('<' :: (b ++ ['>'])) = some []) → ∀ acc,
    runPatterns pats acc ('<' :: (b ++ ['>'])) = (acc + 1, []) ∧
    runPatterns pats acc (('<' :: (b ++ ['>'])) ++ ('<' :: (b ++ ['>']))) = (acc + 2, []) := by
  intro pats
  induction pats with
  | nil =>
    intro _ hex
    simp at hex
  | cons pat pats ih =>
    intro hall hex acc
    rw [List.all_cons, Bool.and_eq_true] at hall
    cases hmp : matchPattern pat ('<' :: (b ++ ['>'])) with
    | some r =>
      have hr : r = [] := matchPattern_token_plain hbgt pat hall.1 r hmp
      subst hr
      constructor
      · simp only [runPatterns]
        rw [show ('<' :: (b ++ ['>'])).length = (b ++ ['>']).length + 1 from rfl,
          runPattern_token_match hmp]
        exact runPatterns_nil_input pats (acc + 1)
      · simp only [runPatterns]
        have hlen : (('<' :: (b ++ ['>'])) ++ ('<' :: (b ++ ['>']))).length =
            ((b ++ ['>']).length + (b ++ ['>']).length) + 2 := by
          simp [List.length_append, List.length_cons]
          omega
        rw [hlen, runPattern_token2_match hall.1 hbgt hmp]
        exact runPatterns_nil_input pats (acc + 2)
    | none =>
      obtain ⟨p, hp, hpm⟩ := hex
      have hp2 : p ∈ pats := by
        rcases List.mem_cons.mp hp with rfl | h2
        · rw [hmp] at hpm
          exact absurd hpm (by simp)
        · exact h2
      have ihh := ih hall.2 ⟨p, hp2, hpm⟩ acc
      constructor
      · simp only [runPatterns]
        rw [show ('<' :: (b ++ ['>'])).length = (b ++ ['>']).length + 1 from rfl,
          runPattern_token_nomatch hall.1 hblt hmp]
        simpa using ihh.1
      · simp only [runPatterns]
        have hlen : (('<' :: (b ++ ['>'])) ++ ('<' :: (b ++ ['>']))).length =
            ((b ++ ['>']).length + (b ++ ['>']).length) + 2 := by
          simp [List.length_append, List.length_cons]
          omega
        rw [hlen, runPattern_token2_nomatch hall.1 hblt hbgt hmp]
        simpa using ihh.2

/-- C2: every recognised special-key token of the fixed pattern set counts as
exactly one keystroke, its doubling counts as exactly two, and no span is
double-counted (a span consumed by one pattern is removed before later
patterns run, so the totals are exactly 1 and 2). -/
theorem recognized_token_counts (s : String) (h : recognizedToken s = true) :
    countKeystrokes s = 1 ∧ countKeystrokes (s ++ s) = 2 := by
  simp only [recognizedToken, List.any_eq_true, beq_iff_eq] at h
  obtain ⟨pat, hpat, alt, halt, hm⟩ := h
  have hwfall := specialKeyPatterns_wf
  rw [List.all_eq_true] at hwfall
  have hwfpat : pat.all wfAlt = true := hwfall pat hpat
  have hwfalt : wfAlt alt = true := List.all_eq_true.mp hwfpat alt halt
  obtain ⟨as2, haltEq, hwft⟩ := wfAlt_shape hwfalt
  subst haltEq
  obtain ⟨x, xs, hsdata⟩ : ∃ x xs, s.data = x :: xs := by
    cases hd : s.data with
    | nil =>
      rw [hd] at hm
      exact absurd hm (by simp [matchAtoms])
    | cons x xs => exact ⟨x, xs, rfl⟩
  rw [hsdata] at hm
  simp only [matchAtoms] at hm
  by_cases hcm : charMatchCI '<' x = true
  case neg =>
    rw [if_neg hcm] at hm
    exact absurd hm (by simp)
  rw [if_pos hcm] at hm
  have hx : x = '<' := charMatchCI_symbol_left (by decide) hcm
  subst hx
  obtain ⟨b, hxs, hbmem⟩ := matchAtoms_wf_shape as2 hwft xs [] hm
  have hblt : ∀ z ∈ b, z ≠ '<' := fun z hz => (hbmem z hz).1
  have hbgt : ∀ z ∈ b, z ≠ '>' := fun z hz => (hbmem z hz).2
  have hxs2 : xs = b ++ ['>'] := hxs
  have halt2 : matchAtoms (Atom.lit '<' :: as2) ('<' :: (b ++ ['>'])) = some [] := by
    simp only [matchAtoms, if_pos (show charMatchCI '<' '<' = true by decide)]
    rw [← hxs2]
    exact hm
  have hexists : ∃ p ∈ specialKeyPatterns, matchPattern p ('<' :: (b ++ ['>'])) = some [] := by
    refine ⟨pat, hpat, ?_⟩
    cases hmp : matchPattern pat ('<' :: (b ++ ['>'])) with
    | none =>
      rw [matchPattern, List.findSome?_eq_none_iff] at hmp
      exact absurd halt2 (by simp [hmp _ halt])
    | some r =>
      rw [matchPattern_token_plain hbgt pat hwfpat r hmp]
  have hrun := runPatterns_token hblt hbgt specialKeyPatterns specialKeyPatterns_wf hexists 0
  have hs0 : (s == "") = false := by
    rw [beq_eq_false_iff_ne]
    intro he
    rw [he] at hsdata
    exact absurd hsdata (by simp)
  constructor
  · unfold countKeystrokes
    rw [hs0, hsdata, hxs2]
    simp only [if_false, hrun.1]
    rfl
  · unfold countKeystrokes
    have hdata2 : (s ++ s).data = ('<' :: (b ++ ['>'])) ++ ('<' :: (b ++ ['>'])) := by
      rw [String.data_append s s, hsdata, hxs2]
    have hs02 : (s ++ s == "") = false := by
      rw [beq_eq_false_iff_ne]
      intro he
      rw [he] at hdata2
      exact absurd hdata2.symm (by simp)
    rw [hs02, hdata2]
    simp only [if_false, hrun.2]
    rfl

/-- Witness for C2 at the concrete token `<CR>`. -/
theorem recognized_token_counts_witness :
    countKeystrokes "<CR>" = 1 ∧ countKeystrokes ("<CR>" ++ "<CR>") = 2 :=
  recognized_token_counts "<CR>" (by decide)

/-! ### C4: the `Solution:` rule of the extractor -/

/-- C4: the first extractor rule returns the trailing text of a `Solution:`
line when it passes the command-likelihood predicate, and falls through to
the later rules when the trailing text is exactly a fenced-block opening
marker; in particular the two concrete examples from the specification. -/
theorem solution_rule_extraction :
    extractSolution "Solution: dd" = "dd" ∧
    extractSolution "Solution: \n```\n:%s/a/b/g<CR>\n```" = ":%s/a/b/g<CR>" ∧
    (∀ text g, findSolution text = some g →
      fenceMarkers.contains (pyStrip g) = true →
      extractSolution text = extractAfterSolutionRule text) ∧
    (∀ text g, findSolution text = some g →
      fenceMarkers.contains (pyStrip g) = false →
      cleanBackticks (pyStrip g) ≠ "" →
      looksLikeVimCommand (cleanBackticks (pyStrip g)) = true →
      extractSolution text = cleanBackticks (pyStrip g)) := by
  refine ⟨by decide, by decide, ?_, ?_⟩
  · intro text g hf hmark
    simp only [extractSolution, hf]
    rw [if_pos hmark]
  · intro text g hf hmark hne hlooks
    simp only [extractSolution, hf]
    rw [if_neg (fun hcon => by rw [hmark] at hcon; exact Bool.false_ne_true hcon),
      if_pos (by simp [hne, hlooks])]

/-- Witness for C4: the accepting branch and the marker fall-through branch
at concrete inputs. -/
theorem solution_rule_extraction_witness :
    extractSolution "Solution: x<CR>" = "x<CR>" ∧
    extractSolution "Solution: ```vim\ndd\n```" =
      extractAfterSolutionRule "Solution: ```vim\ndd\n```" :=
  ⟨solution_rule_extraction.2.2.2 "Solution: x<CR>" "x<CR>"
      (by decide) (by decide) (by decide) (by decide),
   solution_rule_extraction.2.2.1 "Solution: ```vim\ndd\n```" "```vim"
      (by decide) (by decide)⟩

/-! ### C6: history growth (corrected) -/

/-- Counterexample to C6 as stated: a failed command appends a command record
but no state snapshot — after one failed command the state history still has
only the construction snapshot (length 1, not 2). -/
theorem failed_command_drops_snapshot :
    ((VimAgent.executeCommand (fun _ _ => none) (VimAgent.init none) "x" "").toOption.map
      (fun r => (r.1.command_history.length, r.1.state_history.length))) = some (1, 1) ∧
    ¬ ((VimAgent.executeCommand (fun _ _ => none) (VimAgent.init none) "x" "").toOption.map
      (fun r => (r.1.command_history.length, r.1.state_history.length))) = some (1, 2) := by
  constructor <;> decide

/-- C6 (amended): on an active agent every `execute_command` call appends
exactly one command record regardless of success; the state history gains
exactly one snapshot per successful command and none for a failed one, on
top of the single snapshot recorded at construction. -/
theorem history_growth :
    (∀ (step : EngineStep) (a : VimAgent) (ks desc : String), a.active = true →
      ∃ a2 success, VimAgent.executeCommand step a ks desc = Except.ok (a2, success) ∧
        a2.command_history.length = a.command_history.length + 1 ∧
        (success = true → a2.state_history.length = a.state_history.length + 1) ∧
        (success = false → a2.state_history = a.state_history)) ∧
    (∀ initContent, (VimAgent.init initContent).state_history.length = 1) := by
  constructor
  · intro step a ks desc ha
    unfold VimAgent.executeCommand
    rw [if_neg (by simp [ha])]
    cases hstep : step a.editor ks with
    | some ed2 =>
      refine ⟨_, true, rfl, by simp, fun _ => by simp, fun hfalse => by simp at hfalse⟩
    | none =>
      refine ⟨_, false, rfl, by simp, fun htrue => by simp at htrue, fun _ => rfl⟩
  · intro initContent
    cases initContent with
    | none => rfl
    | some l =>
      cases l with
      | nil => rfl
      | cons x xs => rfl

/-- Witness for the amended C6 at a concrete engine and agent. -/
theorem history_growth_witness :
    ∃ a2 success,
      VimAgent.executeCommand (fun ed _ => some ed) (VimAgent.init none) "i" "" =
        Except.ok (a2, success) ∧
      a2.command_history.length = (VimAgent.init none).command_history.length + 1 ∧
      (success = true →
        a2.state_history.length = (VimAgent.init none).state_history.length + 1) ∧
      (success = false → a2.state_history = (VimAgent.init none).state_history) :=
  history_growth.1 (fun ed _ => some ed) (VimAgent.init none) "i" "" rfl

/-! ### C7: behaviour after close (corrected) -/

/-- Counterexample to C7 as stated: after `close()` the rendering query
`format_state_for_llm` does not fail with an inactive-session error — it
returns the fixed string `"Editor session is not active"` normally. -/
theorem closed_render_returns_string :
    (VimAgent.close (VimAgent.init none)).active = false ∧
    VimAgent.formatStateForLLM (VimAgent.close (VimAgent.init none)) true =
      "Editor session is not active" := by
  constructor
  · rfl
  · rfl

/-- C7 (amended): after `close()` the execute, batch-execute (on a non-empty
command list), state, summary, context and suggestion calls all fail with
the inactive-session error, fatal to the call only; the rendering query
instead returns the fixed inactive-session string. -/
theorem inactive_calls_fail (a : VimAgent) (ha : a.active = false) (step : EngineStep)
    (ks desc : String) (cmds : List (String × String)) (hcmds : cmds ≠ [])
    (linesBefore linesAfter : Nat) (inc : Bool) :
    VimAgent.executeCommand step a ks desc = Except.error inactiveMsg ∧
    VimAgent.executeCommands step a cmds = Except.error inactiveMsg ∧
    VimAgent.getCurrentState a = Except.error inactiveMsg ∧
    VimAgent.getBufferSummary a = Except.error inactiveMsg ∧
    VimAgent.getContextWindow a linesBefore linesAfter = Except.error inactiveMsg ∧
    VimAgent.suggestNextActions a = Except.error inactiveMsg ∧
    VimAgent.getEditingSessionSummary a = Except.error inactiveMsg ∧
    VimAgent.formatStateForLLM a inc = "Editor session is not active" := by
  refine ⟨?_, ?_, ?_, ?_, ?_, ?_, ?_, ?_⟩
  · simp [VimAgent.executeCommand, ha]
  · cases cmds with
    | nil => exact absurd rfl hcmds
    | cons c rest => simp [VimAgent.executeCommands, VimAgent.executeCommand, ha]
  · simp [VimAgent.getCurrentState, ha]
  · simp [VimAgent.getBufferSummary, ha]
  · simp [VimAgent.getContextWindow, ha]
  · simp [VimAgent.suggestNextActions, VimAgent.getCurrentState, ha]
  · simp [VimAgent.getEditingSessionSummary, VimAgent.getCurrentState, ha]
  · simp [VimAgent.formatStateForLLM, ha]

/-- Witness for the amended C7 at a concrete closed agent. -/
theorem inactive_calls_fail_witness :
    VimAgent.executeCommand (fun _ _ => none) (VimAgent.close (VimAgent.init none)) "x" "" =
      Except.error inactiveMsg ∧
    VimAgent.executeCommands (fun _ _ => none) (VimAgent.close (VimAgent.init none))
      [("x", "")] = Except.error inactiveMsg ∧
    VimAgent.getCurrentState (VimAgent.close (VimAgent.init none)) = Except.error inactiveMsg ∧
    VimAgent.getBufferSummary (VimAgent.close (VimAgent.init none)) = Except.error inactiveMsg ∧
    VimAgent.getContextWindow (VimAgent.close (VimAgent.init none)) 3 3 =
      Except.error inactiveMsg ∧
    VimAgent.suggestNextActions (VimAgent.close (VimAgent.init none)) =
      Except.error inactiveMsg ∧
    VimAgent.getEditingSessionSummary (VimAgent.close (VimAgent.init none)) =
      Except.error inactiveMsg ∧
    VimAgent.formatStateForLLM (VimAgent.close (VimAgent.init none)) true =
      "Editor session is not active" :=
  inactive_calls_fail (VimAgent.close (VimAgent.init none)) rfl (fun _ _ => none)
    "x" "" [("x", "")] (by simp) 3 3 true

end VimGolfHarness
